import Mathlib

/-!
Shallow embedding of the `graphics_tree` crate (src/lib.rs): a deferred
drawing command buffer (`GraphicsTree`) that records clear / state-change /
triangle-list commands into flat buffers and later replays them against a
backend, with a lazy texture materialization cache (`TextureBuffer`).

Machine scalars: the crate stores `f32` vertex data and colors and only ever
copies them or compares them with exact (bitwise) equality, so scalars are
modelled as `Int` (any type with decidable equality is faithful here).
`DrawState` is an opaque descriptor that the code only compares for equality
and forwards, so it is modelled as `Int` as well.
-/

namespace GTree

/-- Model of `f32` scalars: only copied and compared exactly by the crate. -/
abbrev Scalar := Int

/-- Model of `Color = [f32; 4]`. -/
abbrev Color := Scalar × Scalar × Scalar × Scalar

/-- Model of `graphics::DrawState`: an opaque descriptor, only compared for
equality and forwarded, so any type with decidable equality is faithful. -/
abbrev DrawState := Int

/-- The default draw state (`Default::default()`). -/
def defaultDrawState : DrawState := 0

/-- `range::Range { offset, length }`: a window into a flat buffer. -/
structure Range where
  offset : Nat
  length : Nat
deriving DecidableEq, Repr

/-- `enum Command` from src/lib.rs. The texture handle stored by `Textured`
is an `Arc`-clone; handles are modelled by their index (a `Nat`) into a pool
of handle states, which models the sharing of `Arc<RwLock<TextureInner>>`. -/
inductive Command where
  | ClearColor (c : Color)
  | ClearStencil (v : Nat)
  | ChangeColor (c : Color)
  | ChangeDrawState (d : DrawState)
  | Colored (r : Range)
  | Textured (tex : Nat) (vr : Range) (ur : Range)
deriving DecidableEq, Repr

/-- `struct GraphicsTree` from src/lib.rs. -/
structure GraphicsTree where
  commands : List Command
  vertices : List Scalar
  uvs : List Scalar
  current_color : Color
  current_draw_state : DrawState
deriving DecidableEq, Repr

/-- `GraphicsTree::new()`. -/
def GraphicsTree.new : GraphicsTree :=
  { commands := []
    vertices := []
    uvs := []
    current_color := (0, 0, 0, 0)
    current_draw_state := defaultDrawState }

/-- `GraphicsTree::is_empty()`: all three buffers have length zero. -/
def GraphicsTree.is_empty (t : GraphicsTree) : Bool :=
  t.commands.length == 0 &&
  t.vertices.length == 0 &&
  t.uvs.length == 0

/-- `GraphicsTree::clear()`: `Vec::clear` on the three buffers (the
recorder-tracking fields are untouched by the source). -/
def GraphicsTree.clear (t : GraphicsTree) : GraphicsTree :=
  { t with commands := [], vertices := [], uvs := [] }

/-- `Graphics::clear_color` impl: unconditional append. -/
def GraphicsTree.clear_color (t : GraphicsTree) (color : Color) : GraphicsTree :=
  { t with commands := t.commands ++ [Command.ClearColor color] }

/-- `Graphics::clear_stencil` impl: unconditional append. -/
def GraphicsTree.clear_stencil (t : GraphicsTree) (value : Nat) : GraphicsTree :=
  { t with commands := t.commands ++ [Command.ClearStencil value] }

/-- `Graphics::tri_list` impl (src/lib.rs lines 218-233). The vertex
producer's effect is its list of supplied chunks. Note the source compares
`color` / `draw_state` against `self.current_color` / `self.current_draw_state`
but never assigns those fields. -/
def GraphicsTree.tri_list (t : GraphicsTree) (draw_state : DrawState)
    (color : Color) (chunks : List (List Scalar)) : GraphicsTree :=
  let cmds1 := if color ≠ t.current_color
    then t.commands ++ [Command.ChangeColor color] else t.commands
  let cmds2 := if draw_state ≠ t.current_draw_state
    then cmds1 ++ [Command.ChangeDrawState draw_state] else cmds1
  let start := t.vertices.length
  let verts := t.vertices ++ chunks.flatten
  { t with
    commands := cmds2 ++ [Command.Colored ⟨start, verts.length - start⟩]
    vertices := verts }

/-- `Graphics::tri_list_uv` impl (src/lib.rs lines 235-259). Each producer
call supplies a vertex chunk and a uv chunk together. -/
def GraphicsTree.tri_list_uv (t : GraphicsTree) (draw_state : DrawState)
    (color : Color) (texture : Nat)
    (chunks : List (List Scalar × List Scalar)) : GraphicsTree :=
  let cmds1 := if color ≠ t.current_color
    then t.commands ++ [Command.ChangeColor color] else t.commands
  let cmds2 := if draw_state ≠ t.current_draw_state
    then cmds1 ++ [Command.ChangeDrawState draw_state] else cmds1
  let start_vertices := t.vertices.length
  let start_uvs := t.uvs.length
  let verts := t.vertices ++ (chunks.map Prod.fst).flatten
  let uvs := t.uvs ++ (chunks.map Prod.snd).flatten
  { t with
    commands := cmds2 ++ [Command.Textured texture
      ⟨start_vertices, verts.length - start_vertices⟩
      ⟨start_uvs, uvs.length - start_uvs⟩]
    vertices := verts
    uvs := uvs }

/-- A recording-side operation on a `GraphicsTree`. -/
inductive Op where
  | clearColor (c : Color)
  | clearStencil (v : Nat)
  | triList (ds : DrawState) (c : Color) (chunks : List (List Scalar))
  | triListUV (ds : DrawState) (c : Color) (tex : Nat)
      (chunks : List (List Scalar × List Scalar))
  | clear
deriving Repr

/-- Apply one recording operation. -/
def applyOp (t : GraphicsTree) : Op → GraphicsTree
  | Op.clearColor c => t.clear_color c
  | Op.clearStencil v => t.clear_stencil v
  | Op.triList ds c chunks => t.tri_list ds c chunks
  | Op.triListUV ds c tex chunks => t.tri_list_uv ds c tex chunks
  | Op.clear => t.clear

/-- Run a sequence of recording operations. -/
def runOps (t : GraphicsTree) (ops : List Op) : GraphicsTree :=
  ops.foldl applyOp t

/-- Number of `ChangeColor` commands in a command list. -/
def countChangeColor (l : List Command) : Nat :=
  (l.filter fun c => match c with
    | Command.ChangeColor _ => true
    | _ => false).length

/-- The color `[1, 0, 0, 1]` (red) of the spec's dedup example. -/
def red : Color := (1, 0, 0, 1)

/-- The color `[0, 0, 1, 1]` (blue) of the spec's dedup example. -/
def blue : Color := (0, 0, 1, 1)

/-- C1: claimed, a ChangeColor command is appended exactly when the incoming
color differs from the most recently recorded one, with the tracked current
color updated on each emission, so colors [red, red, blue, blue] append 2
ChangeColor commands. In the code `current_color` is initialized in `new` and
never assigned again, so every draw whose color differs from the initial
transparent color emits ChangeColor: the four draws below emit 4 ChangeColor
commands, not 2, and the tracked color still holds its initial value. -/
theorem C1_changecolor_not_deduplicated :
    countChangeColor (runOps GraphicsTree.new
      [Op.triList defaultDrawState red [],
       Op.triList defaultDrawState red [],
       Op.triList defaultDrawState blue [],
       Op.triList defaultDrawState blue []]).commands = 4 ∧
    (runOps GraphicsTree.new
      [Op.triList defaultDrawState red [],
       Op.triList defaultDrawState red [],
       Op.triList defaultDrawState blue [],
       Op.triList defaultDrawState blue []]).current_color = (0, 0, 0, 0) := by
  constructor <;> rfl

/-- Rust slice `&v[a..b]`: defined when `a ≤ b ≤ v.length`, a panic
otherwise (modelled as `none`). -/
def slice (v : List Scalar) (a b : Nat) : Option (List Scalar) :=
  if a ≤ b ∧ b ≤ v.length then some ((v.take b).drop a) else none

/-- The slice index pairs `(start, end)` issued by the `Colored` branch of
`GraphicsTree::draw` (src/lib.rs lines 107-124), exactly as the source
computes them: full chunks at `offset + chunks * i`, then a remainder slice
`[offset + chunks*bufsize .. offset + (length - chunks*bufsize)]`. -/
def coloredSliceBounds (offset length bufsize : Nat) : List (Nat × Nat) :=
  let chunks := length / bufsize
  ((List.range chunks).map fun i =>
    (offset + chunks * i, offset + chunks * i + bufsize))
  ++ (if chunks * bufsize < length then
        [(offset + chunks * bufsize, offset + (length - chunks * bufsize))]
      else [])

/-- The lockstep slice index pairs issued by the `Textured` branch of
`GraphicsTree::draw` (src/lib.rs lines 175-192): for each of `chunks_v` full
chunks a vertex pair and a uv pair, then one remainder pair when
`chunks_v * bufsize < length_v`. -/
def texturedSliceBounds (offset_v length_v offset_uv length_uv bufsize : Nat) :
    List ((Nat × Nat) × (Nat × Nat)) :=
  let chunks_v := length_v / bufsize
  let chunks_uv := length_uv / bufsize
  ((List.range chunks_v).map fun i =>
    ((offset_v + chunks_v * i, offset_v + chunks_v * i + bufsize),
     (offset_uv + chunks_uv * i, offset_uv + chunks_uv * i + bufsize)))
  ++ (if chunks_v * bufsize < length_v then
        [((offset_v + chunks_v * bufsize,
           offset_v + (length_v - chunks_v * bufsize)),
          (offset_uv + chunks_uv * bufsize,
           offset_uv + (length_uv - chunks_uv * bufsize)))]
      else [])

/-- The slices the replayer feeds to the backend for a `Colored` range:
`none` models a slice-bounds panic. -/
def replayColored (v : List Scalar) (offset length bufsize : Nat) :
    Option (List (List Scalar)) :=
  (coloredSliceBounds offset length bufsize).mapM fun p => slice v p.1 p.2

/-- Modelled from the spec (section 4.2, chunking algorithm): full chunks
start at `offset + i * chunkSize` and the remainder slice covers
`[offset + chunks*chunkSize .. offset + length)`. This is the comparison
point for the replayer's slice bounds, written from the spec's words. -/
def specSliceBounds (offset length bufsize : Nat) : List (Nat × Nat) :=
  let chunks := length / bufsize
  ((List.range chunks).map fun i =>
    (offset + i * bufsize, offset + i * bufsize + bufsize))
  ++ (if chunks * bufsize < length then
        [(offset + chunks * bufsize, offset + length)]
      else [])

/-- Modelled from the spec: the slices replay should issue for a Colored
range, per the spec's chunking algorithm. -/
def specReplayColored (v : List Scalar) (offset length bufsize : Nat) :
    Option (List (List Scalar)) :=
  (specSliceBounds offset length bufsize).mapM fun p => slice v p.1 p.2

/-- An eight-scalar vertex buffer used as a concrete replay input. -/
def vEight : List Scalar := [0, 1, 2, 3, 4, 5, 6, 7]

/-- C2: claimed, replay of a range of length L with chunk size C issues
floor(L/C) full slices at `offset + i*C` plus a remainder slice, whose
concatenation reconstructs the recorded data. The code instead starts full
chunks at `offset + chunks*i` and ends the remainder slice at
`offset + (L - chunks*C)`: for offset 0, L = 5, C = 4 the remainder pair is
(4, 1), an inverted slice that panics, where the spec's algorithm yields
[[0,1,2,3],[4]]; for L = 8, C = 4 the code's slices are [0,1,2,3] and
[2,3,4,5], which do not reconstruct the range, unlike the spec's slices.
The Textured branch computes the same broken remainder pair. -/
theorem C2_chunking_diverges_from_spec :
    replayColored vEight 0 5 4 = none ∧
    specReplayColored vEight 0 5 4 = some [[0, 1, 2, 3], [4]] ∧
    coloredSliceBounds 0 5 4 = [(0, 4), (4, 1)] ∧
    replayColored vEight 0 8 4 = some [[0, 1, 2, 3], [2, 3, 4, 5]] ∧
    specReplayColored vEight 0 8 4 = some [[0, 1, 2, 3], [4, 5, 6, 7]] ∧
    texturedSliceBounds 0 5 0 5 4 = [((0, 4), (0, 4)), ((4, 1), (4, 1))] := by
  refine ⟨rfl, rfl, rfl, rfl, rfl, rfl⟩

/-- C4: `is_empty()` is true iff the commands, vertices and uvs buffers are
all empty; a fresh `GraphicsTree` is empty, and after `clear()` any tree is
empty again, unconditionally. -/
theorem C4_is_empty_iff_and_clear :
    (∀ t : GraphicsTree,
      t.is_empty = true ↔ (t.commands = [] ∧ t.vertices = [] ∧ t.uvs = [])) ∧
    GraphicsTree.new.is_empty = true ∧
    (∀ t : GraphicsTree, t.clear.is_empty = true) := by
  refine ⟨fun t => ?_, rfl, fun t => rfl⟩
  simp [GraphicsTree.is_empty, List.length_eq_zero, and_assoc]

/-- The vertex-buffer ranges of the draw commands of a command list, in
order: the range of each `Colored` and the vertex range of each `Textured`. -/
def vRanges (cmds : List Command) : List Range :=
  cmds.filterMap fun c => match c with
    | Command.Colored r => some r
    | Command.Textured _ r _ => some r
    | _ => none

/-- The uv-buffer ranges of the draw commands of a command list: the uv
range of each `Textured` command. -/
def uvRanges (cmds : List Command) : List Range :=
  cmds.filterMap fun c => match c with
    | Command.Textured _ _ r => some r
    | _ => none

/-- Ranges are in ascending offset order and pairwise non-overlapping:
each ends no later than the next begins. -/
def rangesAscending (l : List Range) : Prop :=
  List.Chain' (fun a b => a.offset + a.length ≤ b.offset) l

/-- The range invariant of a `GraphicsTree`: every stored range stays inside
the buffer it indexes, and the ranges of successively recorded draw commands
are non-overlapping and in ascending offset order. -/
def treeInv (t : GraphicsTree) : Prop :=
  (∀ r ∈ vRanges t.commands, r.offset + r.length ≤ t.vertices.length) ∧
  (∀ r ∈ uvRanges t.commands, r.offset + r.length ≤ t.uvs.length) ∧
  rangesAscending (vRanges t.commands) ∧
  rangesAscending (uvRanges t.commands)

@[simp] lemma vRanges_nil : vRanges [] = [] := rfl

@[simp] lemma uvRanges_nil : uvRanges [] = [] := rfl

@[simp] lemma vRanges_append (l₁ l₂ : List Command) :
    vRanges (l₁ ++ l₂) = vRanges l₁ ++ vRanges l₂ :=
  List.filterMap_append l₁ l₂ _

@[simp] lemma uvRanges_append (l₁ l₂ : List Command) :
    uvRanges (l₁ ++ l₂) = uvRanges l₁ ++ uvRanges l₂ :=
  List.filterMap_append l₁ l₂ _

@[simp] lemma vRanges_clearColor (c : Color) :
    vRanges [Command.ClearColor c] = [] := rfl

@[simp] lemma vRanges_clearStencil (v : Nat) :
    vRanges [Command.ClearStencil v] = [] := rfl

@[simp] lemma vRanges_changeColor (c : Color) :
    vRanges [Command.ChangeColor c] = [] := rfl

@[simp] lemma vRanges_changeDrawState (d : DrawState) :
    vRanges [Command.ChangeDrawState d] = [] := rfl

@[simp] lemma vRanges_colored (r : Range) :
    vRanges [Command.Colored r] = [r] := rfl

@[simp] lemma vRanges_textured (n : Nat) (vr ur : Range) :
    vRanges [Command.Textured n vr ur] = [vr] := rfl

@[simp] lemma uvRanges_clearColor (c : Color) :
    uvRanges [Command.ClearColor c] = [] := rfl

@[simp] lemma uvRanges_clearStencil (v : Nat) :
    uvRanges [Command.ClearStencil v] = [] := rfl

@[simp] lemma uvRanges_changeColor (c : Color) :
    uvRanges [Command.ChangeColor c] = [] := rfl

@[simp] lemma uvRanges_changeDrawState (d : DrawState) :
    uvRanges [Command.ChangeDrawState d] = [] := rfl

@[simp] lemma uvRanges_colored (r : Range) :
    uvRanges [Command.Colored r] = [] := rfl

@[simp] lemma uvRanges_textured (n : Nat) (vr ur : Range) :
    uvRanges [Command.Textured n vr ur] = [ur] := rfl

lemma rangesAscending_append_single {l : List Range} {r : Range} {n : Nat}
    (h : rangesAscending l) (hb : ∀ x ∈ l, x.offset + x.length ≤ n)
    (hn : n ≤ r.offset) : rangesAscending (l ++ [r]) := by
  rw [rangesAscending, List.chain'_append]
  refine ⟨h, List.chain'_singleton r, fun x hx y hy => ?_⟩
  have hxl : x ∈ l := by
    rcases List.mem_getLast?_eq_getLast hx with ⟨hne, rfl⟩
    exact List.getLast_mem hne
  have hyr : r = y := by simpa using hy
  rcases hyr with rfl
  exact le_trans (hb x hxl) hn

/-- `tri_list` preserves the range invariant. -/
lemma treeInv_tri_list (t : GraphicsTree) (ds : DrawState) (c : Color)
    (chunks : List (List Scalar)) (h : treeInv t) :
    treeInv (t.tri_list ds c chunks) := by
  obtain ⟨h1, h2, h3, h4⟩ := h
  unfold GraphicsTree.tri_list
  split_ifs <;>
  · refine ⟨?_, ?_, ?_, ?_⟩ <;>
      simp only [treeInv, vRanges_append, uvRanges_append, vRanges_changeColor,
        vRanges_changeDrawState, uvRanges_changeColor, uvRanges_changeDrawState,
        vRanges_colored, uvRanges_colored, List.append_nil, List.length_append,
        Nat.add_sub_cancel_left]
    · intro r hr
      rcases List.mem_append.1 hr with hr | hr
      · exact le_trans (h1 r hr) (Nat.le_add_right _ _)
      · rcases List.mem_singleton.1 hr with rfl
        exact Nat.le_refl _
    · exact h2
    · exact rangesAscending_append_single h3 h1 (Nat.le_refl _)
    · exact h4

/-- `tri_list_uv` preserves the range invariant. -/
lemma treeInv_tri_list_uv (t : GraphicsTree) (ds : DrawState) (c : Color)
    (tex : Nat) (chunks : List (List Scalar × List Scalar)) (h : treeInv t) :
    treeInv (t.tri_list_uv ds c tex chunks) := by
  obtain ⟨h1, h2, h3, h4⟩ := h
  unfold GraphicsTree.tri_list_uv
  split_ifs <;>
  · refine ⟨?_, ?_, ?_, ?_⟩ <;>
      simp only [treeInv, vRanges_append, uvRanges_append, vRanges_changeColor,
        vRanges_changeDrawState, uvRanges_changeColor, uvRanges_changeDrawState,
        vRanges_textured, uvRanges_textured, List.append_nil, List.length_append,
        Nat.add_sub_cancel_left]
    · intro r hr
      rcases List.mem_append.1 hr with hr | hr
      · exact le_trans (h1 r hr) (Nat.le_add_right _ _)
      · rcases List.mem_singleton.1 hr with rfl
        exact Nat.le_refl _
    · intro r hr
      rcases List.mem_append.1 hr with hr | hr
      · exact le_trans (h2 r hr) (Nat.le_add_right _ _)
      · rcases List.mem_singleton.1 hr with rfl
        exact Nat.le_refl _
    · exact rangesAscending_append_single h3 h1 (Nat.le_refl _)
    · exact rangesAscending_append_single h4 h2 (Nat.le_refl _)

/-- Every recording operation preserves the range invariant. -/
lemma treeInv_applyOp (t : GraphicsTree) (op : Op) (h : treeInv t) :
    treeInv (applyOp t op) := by
  cases op with
  | clearColor c =>
    obtain ⟨h1, h2, h3, h4⟩ := h
    refine ⟨?_, ?_, ?_, ?_⟩ <;>
      simp only [applyOp, GraphicsTree.clear_color, vRanges_append,
        uvRanges_append, vRanges_clearColor, uvRanges_clearColor,
        List.append_nil]
    exacts [h1, h2, h3, h4]
  | clearStencil v =>
    obtain ⟨h1, h2, h3, h4⟩ := h
    refine ⟨?_, ?_, ?_, ?_⟩ <;>
      simp only [applyOp, GraphicsTree.clear_stencil, vRanges_append,
        uvRanges_append, vRanges_clearStencil, uvRanges_clearStencil,
        List.append_nil]
    exacts [h1, h2, h3, h4]
  | triList ds c chunks => exact treeInv_tri_list t ds c chunks h
  | triListUV ds c tex chunks => exact treeInv_tri_list_uv t ds c tex chunks h
  | clear =>
    refine ⟨?_, ?_, ?_, ?_⟩ <;>
      simp [applyOp, GraphicsTree.clear, rangesAscending]

/-- The fresh tree satisfies the range invariant. -/
lemma treeInv_new : treeInv GraphicsTree.new := by
  refine ⟨?_, ?_, ?_, ?_⟩ <;> simp [GraphicsTree.new, rangesAscending]

lemma treeInv_runOps (ops : List Op) (t : GraphicsTree) (h : treeInv t) :
    treeInv (runOps t ops) := by
  induction ops generalizing t with
  | nil => exact h
  | cons op ops ih => exact ih (applyOp t op) (treeInv_applyOp t op h)

/-- C5: every range stored in a recorded draw command satisfies
offset + length ≤ buffer length, the invariant holds after any sequence of
recording operations from a fresh tree (recording appends to the buffers,
clear empties commands along with the buffers), the ranges of successive
draw commands are non-overlapping and ascending, and each recorded range's
length equals the number of scalars the producer supplied. -/
theorem C5_range_invariant :
    (∀ ops : List Op, treeInv (runOps GraphicsTree.new ops)) ∧
    (∀ (t : GraphicsTree) (ds : DrawState) (c : Color)
        (chunks : List (List Scalar)),
      (t.tri_list ds c chunks).commands.getLast? =
        some (Command.Colored
          ⟨t.vertices.length, (chunks.map List.length).sum⟩) ∧
      ∃ w, (t.tri_list ds c chunks).vertices = t.vertices ++ w) ∧
    (∀ (t : GraphicsTree) (ds : DrawState) (c : Color) (tex : Nat)
        (chunks : List (List Scalar × List Scalar)),
      (t.tri_list_uv ds c tex chunks).commands.getLast? =
        some (Command.Textured tex
          ⟨t.vertices.length, (chunks.map fun p => p.1.length).sum⟩
          ⟨t.uvs.length, (chunks.map fun p => p.2.length).sum⟩) ∧
      ∃ w₁ w₂, (t.tri_list_uv ds c tex chunks).vertices = t.vertices ++ w₁ ∧
        (t.tri_list_uv ds c tex chunks).uvs = t.uvs ++ w₂) := by
  refine ⟨fun ops => treeInv_runOps ops _ treeInv_new, fun t ds c chunks => ?_,
    fun t ds c tex chunks => ?_⟩
  · unfold GraphicsTree.tri_list
    split_ifs <;>
      exact ⟨by simp [List.getLast?_concat, List.length_flatten],
        ⟨chunks.flatten, rfl⟩⟩
  · unfold GraphicsTree.tri_list_uv
    split_ifs <;>
      exact ⟨by simp [List.getLast?_concat, List.length_flatten,
          Function.comp_def],
        ⟨(chunks.map Prod.fst).flatten, (chunks.map Prod.snd).flatten,
          rfl, rfl⟩⟩

/-- Number of `Colored` commands in a command list. -/
def countColored (l : List Command) : Nat :=
  (l.filter fun c => match c with
    | Command.Colored _ => true
    | _ => false).length

/-- Number of `Textured` commands in a command list. -/
def countTextured (l : List Command) : Nat :=
  (l.filter fun c => match c with
    | Command.Textured _ _ _ => true
    | _ => false).length

/-- C6: every `tri_list` call appends exactly one `Colored` command and no
`Textured` command, and every `tri_list_uv` call appends exactly one
`Textured` command and no `Colored` command, even when the producer supplies
zero chunks or zero scalars; afterwards `is_empty()` returns false. -/
theorem C6_one_range_command_per_draw :
    (∀ (t : GraphicsTree) (ds : DrawState) (c : Color)
        (chunks : List (List Scalar)),
      countColored (t.tri_list ds c chunks).commands =
        countColored t.commands + 1 ∧
      countTextured (t.tri_list ds c chunks).commands =
        countTextured t.commands ∧
      (t.tri_list ds c chunks).is_empty = false) ∧
    (∀ (t : GraphicsTree) (ds : DrawState) (c : Color) (tex : Nat)
        (chunks : List (List Scalar × List Scalar)),
      countTextured (t.tri_list_uv ds c tex chunks).commands =
        countTextured t.commands + 1 ∧
      countColored (t.tri_list_uv ds c tex chunks).commands =
        countColored t.commands ∧
      (t.tri_list_uv ds c tex chunks).is_empty = false) := by
  constructor
  · intro t ds c chunks
    unfold GraphicsTree.tri_list
    split_ifs <;>
      refine ⟨?_, ?_, ?_⟩ <;>
        simp [countColored, countTextured, GraphicsTree.is_empty,
          List.filter_append]
  · intro t ds c tex chunks
    unfold GraphicsTree.tri_list_uv
    split_ifs <;>
      refine ⟨?_, ?_, ?_⟩ <;>
        simp [countColored, countTextured, GraphicsTree.is_empty,
          List.filter_append]

/-- Model of `image::RgbaImage`: an opaque pixel payload. The crate only
stores it, hands it to the texture factory and queries its dimensions, so
the payload's structure is irrelevant. -/
abbrev RgbaImage := List Nat

/-- `struct TextureInner` from src/lib.rs. -/
structure TextureInner where
  id : Option Nat
  needs_update : Bool
  image : RgbaImage
deriving DecidableEq, Repr

/-- `struct TextureBuffer<F, T>` from src/lib.rs: `HashMap<u64, T>` is
modelled as an association list whose insert replaces an existing key; the
factory `F` is modelled as the `create` function handed to materialization. -/
structure TextureBuffer (T : Type) where
  textures : List (Nat × T)
  next_id : Nat
deriving Repr

/-- `TextureBuffer::new`. -/
def TextureBuffer.new {T : Type} : TextureBuffer T :=
  { textures := [], next_id := 0 }

/-- `HashMap::insert`: replace the value at an existing key, else append. -/
def insertAssoc {T : Type} : List (Nat × T) → Nat → T → List (Nat × T)
  | [], k, v => [(k, v)]
  | (k', v') :: rest, k, v =>
    if k' = k then (k, v) :: rest else (k', v') :: insertAssoc rest k v

/-- `HashMap::get`. -/
def lookupAssoc {T : Type} : List (Nat × T) → Nat → Option T
  | [], _ => none
  | (k', v') :: rest, k => if k' = k then some v' else lookupAssoc rest k

/-- `Texture::with_image_mut` (src/lib.rs lines 284-292): run the edit
function on the image, then set `needs_update`. -/
def Texture.with_image_mut (inner : TextureInner)
    (f : RgbaImage → RgbaImage) : TextureInner :=
  { inner with image := f inner.image, needs_update := true }

/-- `From<RgbaImage> for Texture` (src/lib.rs lines 262-270). -/
def Texture.fromImage (image : RgbaImage) : TextureInner :=
  { id := none, needs_update := false, image := image }

/-- The texture materialization step of the `Textured` branch of
`GraphicsTree::draw` (src/lib.rs lines 134-173), after the write lock is
acquired. `create` models `CreateTexture::create` against the cache's
factory; `none` models a panic (upload failure or missing cache entry). The
returned `Nat` counts backend uploads performed by this call (0 or 1). -/
def materializeTex {T : Type} (create : RgbaImage → Option T)
    (tb : TextureBuffer T) (inner : TextureInner) :
    Option (TextureBuffer T × TextureInner × T × Nat) :=
  match inner.id with
  | none =>
    match create inner.image with
    | none => none
    | some newTexture =>
      let tb' : TextureBuffer T :=
        { textures := insertAssoc tb.textures tb.next_id newTexture
          next_id := tb.next_id + 1 }
      let inner' := { inner with id := some tb.next_id }
      match lookupAssoc tb'.textures tb.next_id with
      | none => none
      | some texture => some (tb', inner', texture, 1)
  | some id0 =>
    if inner.needs_update then
      match create inner.image with
      | none => none
      | some newTexture =>
        let tb' : TextureBuffer T :=
          { tb with textures := insertAssoc tb.textures id0 newTexture }
        let inner' := { inner with needs_update := false }
        match lookupAssoc tb'.textures id0 with
        | none => none
        | some texture => some (tb', inner', texture, 1)
    else
      match lookupAssoc tb.textures id0 with
      | none => none
      | some texture => some (tb, inner, texture, 0)

lemma lookupAssoc_insertAssoc_self {T : Type} (l : List (Nat × T))
    (k : Nat) (v : T) : lookupAssoc (insertAssoc l k v) k = some v := by
  induction l with
  | nil => simp [insertAssoc, lookupAssoc]
  | cons p rest ih =>
    obtain ⟨k', v'⟩ := p
    by_cases h : k' = k
    · subst h; simp [insertAssoc, lookupAssoc]
    · simp [insertAssoc, lookupAssoc, h, ih]

lemma lookupAssoc_insertAssoc_ne {T : Type} (l : List (Nat × T))
    (k : Nat) (v : T) (k₀ : Nat) (h : k₀ ≠ k) :
    lookupAssoc (insertAssoc l k v) k₀ = lookupAssoc l k₀ := by
  induction l with
  | nil => simp [insertAssoc, lookupAssoc, Ne.symm h]
  | cons p rest ih =>
    obtain ⟨k', v'⟩ := p
    by_cases hk : k' = k
    · subst hk
      simp [insertAssoc, lookupAssoc, Ne.symm h]
    · simp [insertAssoc, lookupAssoc, hk, ih]

lemma mem_keys_insertAssoc {T : Type} (l : List (Nat × T)) (k : Nat) (v : T)
    (j : Nat) :
    j ∈ (insertAssoc l k v).map Prod.fst → j = k ∨ j ∈ l.map Prod.fst := by
  induction l with
  | nil =>
    intro h
    simp only [insertAssoc, List.map_cons, List.map_nil, List.mem_cons,
      List.not_mem_nil, or_false] at h
    exact Or.inl h
  | cons p rest ih =>
    obtain ⟨k', v'⟩ := p
    intro h
    by_cases hk : k' = k
    · subst hk
      simp [insertAssoc, List.mem_cons] at h ⊢
      tauto
    · simp only [insertAssoc, if_neg hk, List.map_cons, List.mem_cons] at h ⊢
      rcases h with h | h
      · exact Or.inr (Or.inl h)
      · rcases ih h with h | h
        · exact Or.inl h
        · exact Or.inr (Or.inr h)

lemma length_insertAssoc_of_mem {T : Type} (l : List (Nat × T)) (k : Nat)
    (v : T) :
    k ∈ l.map Prod.fst → (insertAssoc l k v).length = l.length := by
  induction l with
  | nil => intro h; simp at h
  | cons p rest ih =>
    obtain ⟨k', v'⟩ := p
    intro h
    by_cases hk : k' = k
    · subst hk; simp [insertAssoc]
    · simp only [List.map_cons, List.mem_cons] at h
      rcases h with h' | h'
      · exact absurd h'.symm hk
      · simp [insertAssoc, hk, ih h']

lemma lookupAssoc_eq_none_of_keys_lt {T : Type} (l : List (Nat × T)) (n : Nat)
    (h : ∀ j ∈ l.map Prod.fst, j < n) : lookupAssoc l n = none := by
  induction l with
  | nil => rfl
  | cons p rest ih =>
    obtain ⟨k', v'⟩ := p
    have hk : k' < n := h k' (by simp)
    have hne : k' ≠ n := Nat.ne_of_lt hk
    simp only [lookupAssoc, hne, if_false]
    exact ih fun j hj => h j (by simp [hj])

/-- C7: whenever the scoped-write accessor `with_image_mut` completes
normally, the handle's `needs_update` flag is true on exit, for every edit
function, including one that changes no pixels; the image is replaced by the
edit's result and the id is untouched. -/
theorem C7_with_image_mut_always_dirties :
    ∀ (inner : TextureInner) (f : RgbaImage → RgbaImage),
      ( Texture.with_image_mut inner f).needs_update = true ∧
      ( Texture.with_image_mut inner f).image = f inner.image ∧
      ( Texture.with_image_mut inner f).id = inner.id :=
  fun _ _ => ⟨rfl, rfl, rfl⟩

/-- C3: replaying a Textured command against a cache: with the id absent,
exactly one upload occurs, the texture is stored under the freshly allocated
id and that id is assigned to the handle; else with `needs_update` set,
exactly one upload occurs, the entry at the existing id is replaced without
adding an entry, and the flag is cleared; else no upload occurs and the
cached entry is reused, so materializing the same untouched handle twice
performs exactly one upload. -/
theorem C3_materialization_cache_discipline :
    (∀ (T : Type) (create : RgbaImage → Option T) (tb : TextureBuffer T)
        (inner : TextureInner) (tex : T),
      create inner.image = some tex → inner.id = none →
      materializeTex create tb inner =
        some ({ textures := insertAssoc tb.textures tb.next_id tex
                next_id := tb.next_id + 1 },
          { inner with id := some tb.next_id }, tex, 1)) ∧
    (∀ (T : Type) (create : RgbaImage → Option T) (tb : TextureBuffer T)
        (inner : TextureInner) (tex : T) (i : Nat),
      create inner.image = some tex → inner.id = some i →
      inner.needs_update = true →
      materializeTex create tb inner =
        some ({ tb with textures := insertAssoc tb.textures i tex },
          { inner with needs_update := false }, tex, 1) ∧
      (i ∈ tb.textures.map Prod.fst →
        (insertAssoc tb.textures i tex).length = tb.textures.length)) ∧
    (∀ (T : Type) (create : RgbaImage → Option T) (tb : TextureBuffer T)
        (inner : TextureInner) (tex : T) (i : Nat),
      inner.id = some i → inner.needs_update = false →
      lookupAssoc tb.textures i = some tex →
      materializeTex create tb inner = some (tb, inner, tex, 0)) ∧
    (∀ (T : Type) (create : RgbaImage → Option T) (tb : TextureBuffer T)
        (inner : TextureInner) (tex : T),
      create inner.image = some tex → inner.id = none →
      inner.needs_update = false →
      ∃ tb₁ inner₁,
        materializeTex create tb inner = some (tb₁, inner₁, tex, 1) ∧
        materializeTex create tb₁ inner₁ = some (tb₁, inner₁, tex, 0)) := by
  refine ⟨?_, ?_, ?_, ?_⟩
  · intro T create tb inner tex hc hid
    obtain ⟨oid, nu, img⟩ := inner
    cases hid
    simp [materializeTex, hc, lookupAssoc_insertAssoc_self]
  · intro T create tb inner tex i hc hid hnu
    obtain ⟨oid, nu, img⟩ := inner
    cases hid; cases hnu
    refine ⟨?_, length_insertAssoc_of_mem tb.textures i tex⟩
    simp only [materializeTex] at hc ⊢
    simp [hc, lookupAssoc_insertAssoc_self]
  · intro T create tb inner tex i hid hnu hl
    obtain ⟨oid, nu, img⟩ := inner
    cases hid; cases hnu
    simp [materializeTex, hl]
  · intro T create tb inner tex hc hid hnu
    obtain ⟨oid, nu, img⟩ := inner
    cases hid; cases hnu
    refine ⟨{ textures := insertAssoc tb.textures tb.next_id tex
              next_id := tb.next_id + 1 },
      { id := some tb.next_id, needs_update := false, image := img }, ?_, ?_⟩
    · simp [materializeTex, hc, lookupAssoc_insertAssoc_self]
    · simp [materializeTex, lookupAssoc_insertAssoc_self]

/-- C9: when a handle's image was edited before its first materialization
(id absent and `needs_update` already true), the first materialization
uploads once and assigns an id but does not clear `needs_update`, so the
next materialization, without any further edit, uploads a second time (and
only then clears the flag). -/
theorem C9_dirty_flag_survives_first_materialization {T : Type}
    (create : RgbaImage → Option T) (tb : TextureBuffer T)
    (inner : TextureInner) (tex : T)
    (hc : create inner.image = some tex)
    (hid : inner.id = none) (hnu : inner.needs_update = true) :
    ∃ tb₁ inner₁,
      materializeTex create tb inner = some (tb₁, inner₁, tex, 1) ∧
      inner₁.id = some tb.next_id ∧ inner₁.needs_update = true ∧
      ∃ tb₂ inner₂,
        materializeTex create tb₁ inner₁ = some (tb₂, inner₂, tex, 1) ∧
        inner₂.needs_update = false := by
  obtain ⟨oid, nu, img⟩ := inner
  cases hid; cases hnu
  refine ⟨{ textures := insertAssoc tb.textures tb.next_id tex
            next_id := tb.next_id + 1 },
    { id := some tb.next_id, needs_update := true, image := img },
    ?_, rfl, rfl,
    { textures := insertAssoc (insertAssoc tb.textures tb.next_id tex)
        tb.next_id tex
      next_id := tb.next_id + 1 },
    { id := some tb.next_id, needs_update := false, image := img },
    ?_, rfl⟩
  · simp [materializeTex, hc, lookupAssoc_insertAssoc_self]
  · simp [materializeTex, hc, lookupAssoc_insertAssoc_self]

/-- Witness for C9 at a concrete input: a fresh cache and a handle with no
id whose image was already edited. -/
theorem C9_dirty_flag_witness :
    ∃ tb₁ inner₁,
      materializeTex (fun img => some img.length)
        (TextureBuffer.new : TextureBuffer Nat) ⟨none, true, [3, 4]⟩ =
        some (tb₁, inner₁, 2, 1) ∧
      inner₁.id = some (TextureBuffer.new : TextureBuffer Nat).next_id ∧
      inner₁.needs_update = true ∧
      ∃ tb₂ inner₂,
        materializeTex (fun img => some img.length) tb₁ inner₁ =
          some (tb₂, inner₂, 2, 1) ∧
        inner₂.needs_update = false :=
  C9_dirty_flag_survives_first_materialization (fun img => some img.length)
    TextureBuffer.new ⟨none, true, [3, 4]⟩ 2 rfl rfl rfl

/-- The cache invariant: every key of the texture map is strictly below
`next_id`. -/
def cacheInv {T : Type} (tb : TextureBuffer T) : Prop :=
  ∀ k ∈ tb.textures.map Prod.fst, k < tb.next_id

/-- C10: a fresh cache starts with `next_id = 0` and an empty map; a
successful materialization preserves the key invariant, never decreases
`next_id`, allocates exactly the old `next_id` (not yet a key of the map)
and bumps `next_id` by one on a first-time materialization, and on a handle
that already has an id leaves `next_id` alone and touches no map entry other
than that id. -/
theorem C10_id_allocation_invariant {T : Type}
    (create : RgbaImage → Option T) (tb tb' : TextureBuffer T)
    (inner inner' : TextureInner) (tex : T) (u : Nat)
    (hinv : cacheInv tb)
    (hhandle : ∀ i, inner.id = some i → i < tb.next_id)
    (h : materializeTex create tb inner = some (tb', inner', tex, u)) :
    ((TextureBuffer.new : TextureBuffer T).textures = [] ∧
      (TextureBuffer.new : TextureBuffer T).next_id = 0) ∧
    cacheInv tb' ∧ tb.next_id ≤ tb'.next_id ∧
    (inner.id = none →
      tb'.next_id = tb.next_id + 1 ∧ inner'.id = some tb.next_id ∧
      lookupAssoc tb.textures tb.next_id = none ∧
      ∀ k, k ≠ tb.next_id →
        lookupAssoc tb'.textures k = lookupAssoc tb.textures k) ∧
    (∀ i, inner.id = some i →
      tb'.next_id = tb.next_id ∧ inner'.id = some i ∧
      ∀ k, k ≠ i →
        lookupAssoc tb'.textures k = lookupAssoc tb.textures k) := by
  obtain ⟨oid, nu, img⟩ := inner
  refine ⟨⟨rfl, rfl⟩, ?_⟩
  cases oid with
  | none =>
    cases hcr : create img with
    | none => simp [materializeTex, hcr] at h
    | some newTexture =>
      simp only [materializeTex, hcr, lookupAssoc_insertAssoc_self,
        Option.some.injEq, Prod.mk.injEq] at h
      obtain ⟨rfl, rfl, rfl, rfl⟩ := h
      refine ⟨?_, Nat.le_succ _, fun _ => ⟨rfl, rfl, ?_, ?_⟩, by simp⟩
      · intro k hk
        rcases mem_keys_insertAssoc tb.textures tb.next_id newTexture k hk
          with rfl | hk
        · exact Nat.lt_succ_self _
        · exact Nat.lt_succ_of_lt (hinv k hk)
      · exact lookupAssoc_eq_none_of_keys_lt tb.textures tb.next_id hinv
      · intro k hk
        exact lookupAssoc_insertAssoc_ne tb.textures tb.next_id newTexture k hk
  | some i =>
    have hi : i < tb.next_id := hhandle i rfl
    cases nu with
    | true =>
      cases hcr : create img with
      | none => simp [materializeTex, hcr] at h
      | some newTexture =>
        simp only [materializeTex, if_true, hcr,
          lookupAssoc_insertAssoc_self, Option.some.injEq, Prod.mk.injEq] at h
        obtain ⟨rfl, rfl, rfl, rfl⟩ := h
        refine ⟨?_, Nat.le_refl _, by simp, fun j hj => ?_⟩
        · intro k hk
          rcases mem_keys_insertAssoc tb.textures i newTexture k hk
            with rfl | hk
          · exact hi
          · exact hinv k hk
        · obtain rfl : i = j := by simpa using hj
          exact ⟨rfl, rfl, fun k hk =>
            lookupAssoc_insertAssoc_ne tb.textures i newTexture k hk⟩
    | false =>
      cases hl : lookupAssoc tb.textures i with
      | none => simp [materializeTex, hl] at h
      | some texture =>
        simp only [materializeTex, if_false, hl, Option.some.injEq,
          Prod.mk.injEq] at h
        obtain ⟨rfl, rfl, rfl, rfl⟩ := h
        refine ⟨hinv, Nat.le_refl _, by simp, fun j hj => ?_⟩
        obtain rfl : i = j := by simpa using hj
        exact ⟨rfl, rfl, fun k hk => rfl⟩

/-- Witness for C10 at a concrete input: the fresh-cache first-time
materialization of a clean handle. -/
theorem C10_id_allocation_witness :
    ((TextureBuffer.new : TextureBuffer Nat).textures = [] ∧
      (TextureBuffer.new : TextureBuffer Nat).next_id = 0) ∧
    cacheInv (TextureBuffer.mk [(0, 1)] 1) ∧
    (TextureBuffer.new : TextureBuffer Nat).next_id ≤ 1 ∧
    ((Option.none : Option Nat) = none →
      (1 : Nat) = (TextureBuffer.new : TextureBuffer Nat).next_id + 1 ∧
      (Option.some 0 : Option Nat) =
        some (TextureBuffer.new : TextureBuffer Nat).next_id ∧
      lookupAssoc (TextureBuffer.new : TextureBuffer Nat).textures
        (TextureBuffer.new : TextureBuffer Nat).next_id = none ∧
      ∀ k, k ≠ (TextureBuffer.new : TextureBuffer Nat).next_id →
        lookupAssoc [(0, 1)] k =
          lookupAssoc (TextureBuffer.new : TextureBuffer Nat).textures k) ∧
    (∀ i, (Option.none : Option Nat) = some i →
      (1 : Nat) = (TextureBuffer.new : TextureBuffer Nat).next_id ∧
      (Option.some 0 : Option Nat) = some i ∧
      ∀ k, k ≠ i →
        lookupAssoc [(0, 1)] k =
          lookupAssoc (TextureBuffer.new : TextureBuffer Nat).textures k) := by
  have h := C10_id_allocation_invariant (fun img => some img.length)
    (TextureBuffer.new : TextureBuffer Nat) (TextureBuffer.mk [(0, 1)] 1)
    ⟨none, false, [5]⟩ ⟨some 0, false, [5]⟩ 1 1
    (by intro k hk; simp [TextureBuffer.new] at hk)
    (by intro i hi; cases hi) rfl
  exact h

/-- One backend call issued during replay (the `Graphics` capability the
replayer drives). The backend's texture type is modelled as `Nat`. -/
inductive BCall where
  | clearColor (c : Color)
  | clearStencil (v : Nat)
  | triList (ds : DrawState) (c : Color) (slices : List (List Scalar))
  | triListUV (ds : DrawState) (c : Color) (tex : Nat)
      (slices : List (List Scalar × List Scalar))
deriving Repr

/-- The lockstep vertex/uv slices the replayer feeds to the backend for a
`Textured` command; `none` models a slice-bounds panic. -/
def replayTextured (v uvs : List Scalar) (vr ur : Range) (bufsize : Nat) :
    Option (List (List Scalar × List Scalar)) :=
  (texturedSliceBounds vr.offset vr.length ur.offset ur.length bufsize).mapM
    fun p => do
      let a ← slice v p.1.1 p.1.2
      let b ← slice uvs p.2.1 p.2.2
      return (a, b)

/-- The replay machine state threaded through `GraphicsTree::draw`: the tree
being replayed (taken by `&self` in the source), the pool of texture handle
states (the `Bool` marks a write lock held elsewhere), the texture cache,
the replayer's local color and draw state, and the trace of backend calls. -/
structure RState where
  tree : GraphicsTree
  handles : List (Bool × TextureInner)
  texbuf : TextureBuffer Nat
  color : Color
  draw_state : DrawState
  calls : List BCall

/-- One iteration of the command loop of `GraphicsTree::draw` (src/lib.rs
lines 101-195). `false` models a panic aborting the call: lock contention,
upload failure, missing cache entry, or a slice-bounds violation; the state
returned with it is the state at the moment of the abort. -/
def drawCmd (bufsize : Nat) (create : RgbaImage → Option Nat)
    (s : RState) : Command → Bool × RState
  | Command.ClearColor c =>
    (true, { s with calls := s.calls ++ [BCall.clearColor c] })
  | Command.ClearStencil v =>
    (true, { s with calls := s.calls ++ [BCall.clearStencil v] })
  | Command.ChangeColor c => (true, { s with color := c })
  | Command.ChangeDrawState d => (true, { s with draw_state := d })
  | Command.Colored r =>
    match replayColored s.tree.vertices r.offset r.length bufsize with
    | none => (false, s)
    | some slices =>
      (true, { s with
        calls := s.calls ++ [BCall.triList s.draw_state s.color slices] })
  | Command.Textured h vr ur =>
    match s.handles.get? h with
    | none => (false, s)
    | some (locked, inner) =>
      if locked then (false, s)
      else
        match materializeTex create s.texbuf inner with
        | none => (false, s)
        | some (tb', inner', tex, _) =>
          let s' := { s with
            handles := s.handles.set h (false, inner')
            texbuf := tb' }
          match replayTextured s.tree.vertices s.tree.uvs vr ur bufsize with
          | none => (false, s')
          | some pairs =>
            (true, { s' with calls := s'.calls ++
              [BCall.triListUV s.draw_state s.color tex pairs] })

/-- The command loop of `GraphicsTree::draw`: run commands in order until
done or a panic aborts the call. -/
def drawAll (bufsize : Nat) (create : RgbaImage → Option Nat) :
    RState → List Command → Bool × RState
  | s, [] => (true, s)
  | s, c :: rest =>
    match drawCmd bufsize create s c with
    | (true, s') => drawAll bufsize create s' rest
    | (false, s') => (false, s')

/-- `GraphicsTree::draw` (src/lib.rs lines 86-196): local color starts at
transparent zero and local draw state at the default, then the command log
is walked in order. -/
def GraphicsTree.draw (bufsize : Nat) (create : RgbaImage → Option Nat)
    (t : GraphicsTree) (handles : List (Bool × TextureInner))
    (texbuf : TextureBuffer Nat) : Bool × RState :=
  drawAll bufsize create
    { tree := t
      handles := handles
      texbuf := texbuf
      color := (0, 0, 0, 0)
      draw_state := defaultDrawState
      calls := [] }
    t.commands

lemma drawCmd_preserves_tree (bufsize : Nat) (create : RgbaImage → Option Nat)
    (s : RState) (cmd : Command) :
    ((drawCmd bufsize create s cmd).2).tree = s.tree := by
  cases cmd <;> simp only [drawCmd] <;> (repeat' split) <;> rfl

lemma drawAll_preserves_tree (bufsize : Nat) (create : RgbaImage → Option Nat)
    (cmds : List Command) :
    ∀ s : RState, ((drawAll bufsize create s cmds).2).tree = s.tree := by
  induction cmds with
  | nil => intro s; rfl
  | cons c rest ih =>
    intro s
    have ht := drawCmd_preserves_tree bufsize create s c
    simp only [drawAll]
    cases h : drawCmd bufsize create s c with
    | mk ok s' =>
      rw [h] at ht
      cases ok
      · exact ht
      · exact (ih s').trans ht

/-- C8: replaying never modifies the `GraphicsTree`: after any call to
`draw`, whether it completes or aborts fatally (lock contention, missing
cache entry, upload failure, slice panic), the tree — its commands, vertices
and uvs — is exactly as it was before the call. -/
theorem C8_draw_leaves_tree_unchanged :
    ∀ (bufsize : Nat) (create : RgbaImage → Option Nat) (t : GraphicsTree)
      (handles : List (Bool × TextureInner)) (texbuf : TextureBuffer Nat),
      ((GraphicsTree.draw bufsize create t handles texbuf).2).tree = t ∧
      ((GraphicsTree.draw bufsize create t handles texbuf).2).tree.commands
        = t.commands ∧
      ((GraphicsTree.draw bufsize create t handles texbuf).2).tree.vertices
        = t.vertices ∧
      ((GraphicsTree.draw bufsize create t handles texbuf).2).tree.uvs
        = t.uvs := by
  intro bufsize create t handles texbuf
  have h := drawAll_preserves_tree bufsize create t.commands
    { tree := t
      handles := handles
      texbuf := texbuf
      color := (0, 0, 0, 0)
      draw_state := defaultDrawState
      calls := [] }
  exact ⟨h, by rw [GraphicsTree.draw, h], by rw [GraphicsTree.draw, h],
    by rw [GraphicsTree.draw, h]⟩

end GTree
